import Mathlib

/-!
Verification of the MyLife data layer (data.js): the offline-first record
store, the sync queue drain of `syncNow`, the pull-merge of `_pullFromSheets`,
and the positional row codec.  JavaScript objects are modelled as association
lists of string keys and dynamic values; `undefined` is modelled as absence
of the key, and reads of absent keys coalesce to `null` (the code under
verification never distinguishes `undefined` from `null`: every use site is a
truthiness test, a `!== undefined && !== null` test, or an `Object.assign`).
-/

namespace MyLife

/-- A JavaScript value as it occurs in the data layer: strings, booleans,
integers (timestamps, ids, counters) and null.  The code never does
fractional arithmetic on the fields the verified claims touch, so numbers
are embedded as integers. -/
inductive Value where
  | null : Value
  | bool (b : Bool) : Value
  | num (n : Int) : Value
  | str (s : String) : Value
deriving DecidableEq

/-- A JavaScript object: an association list from property name to value. -/
abbrev Rec := List (String × Value)

/-- JavaScript truthiness for the values above. -/
def truthy : Value → Bool
  | Value.null => false
  | Value.bool b => b
  | Value.num n => n != 0
  | Value.str s => s != ""

/-- JavaScript `a || b` restricted to values. -/
def jsOr (a b : Value) : Value := if truthy a then a else b

/-- JavaScript `String(v)` for the defined, non-null values the natural-key
comparison of `_findMatchingRecord` can see. -/
def valueToString : Value → String
  | Value.null => "null"
  | Value.bool b => if b then "true" else "false"
  | Value.num n => toString n
  | Value.str s => s

/-- JavaScript `a > b` for the `_modified` comparison in `_pullFromSheets`;
both operands are always numeric timestamps there (every `_modified` is
written by the code as `Date.now()` or the merge stamp). -/
def jsGt (a b : Value) : Bool :=
  match a, b with
  | Value.num x, Value.num y => y < x
  | _, _ => false

/-- Property read, `obj[k]`, as an `Option` (absent key = JS `undefined`). -/
def getF? (r : Rec) (k : String) : Option Value :=
  (r.find? (fun p => p.1 == k)).map (fun p => p.2)

/-- Property read coalescing an absent key to `null`. -/
def getF (r : Rec) (k : String) : Value := (getF? r k).getD Value.null

/-- Property write, `obj[k] = v`.  Property insertion order is not
observable by any verified code path, so the pair is kept canonically at the
end (existing pairs for the key are dropped; a JS object holds one value per
key). -/
def setF : Rec → String → Value → Rec
  | [], k, v => [(k, v)]
  | p :: r, k, v => if p.1 == k then setF r k v else p :: setF r k v

/-- `Object.assign(r, s)`: copy every property of `s` onto `r`. -/
def assign (r s : Rec) : Rec := s.foldl (fun acc p => setF acc p.1 p.2) r

/-- `r` has no duplicate property names (JS objects cannot). -/
def NodupKeys (r : Rec) : Prop := (r.map Prod.fst).Nodup

/-- The per-sheet column schemas (`COLUMNS` in data.js). -/
def COLUMNS : List (String × List String) :=
  [ ("health", ["date", "weight_kg", "bmi", "bp_systolic", "bp_diastolic",
      "heart_rate", "blood_sugar", "notes"]),
    ("medications", ["date", "name", "dosage", "time", "category", "taken"]),
    ("appointments", ["date", "time", "doctor", "specialty", "location", "notes"]),
    ("fitness", ["date", "type", "exercise", "duration_min", "sets", "reps",
      "weight_kg", "calories_burned", "notes"]),
    ("nutrition", ["date", "meal", "food", "calories", "protein_g", "carbs_g",
      "fat_g", "fiber_g", "notes"]),
    ("water", ["date", "time", "amount_ml"]),
    ("sleep", ["date", "bedtime", "wake_time", "hours", "quality", "notes"]),
    ("mood", ["date", "time", "mood", "stress", "energy", "gratitude", "notes"]),
    ("meditation", ["date", "duration_min", "type", "notes"]),
    ("habits", ["date", "habit_id", "completed"]),
    ("habit_defs", ["id", "name", "icon", "category", "target", "active"]),
    ("goals", ["id", "type", "title", "target", "current", "deadline", "status"]),
    ("profile", ["key", "value"]) ]

/-- `COLUMNS[sheet]` (JS member access on the schema table). -/
def colsOf (sheet : String) : Option (List String) :=
  (COLUMNS.find? (fun p => p.1 == sheet)).map (fun p => p.2)

/-- `DATE_INDEXED_STORES` in data.js. -/
def DATE_INDEXED_STORES : List String :=
  ["health", "medications", "appointments", "fitness", "nutrition",
   "water", "sleep", "mood", "meditation", "habits"]

/-- `MAX_RETRIES` in data.js. -/
def MAX_RETRIES : Nat := 3

/-- `objectToRowArray(sheet, obj)`: encode an object into a positional row,
writing `''` for properties that are `undefined` or `null` (and `[]` for an
unknown sheet). -/
def objectToRowArray (sheet : String) (obj : Rec) : List Value :=
  match colsOf sheet with
  | none => []
  | some cols =>
    cols.map (fun c =>
      match getF? obj c with
      | some v => if v = Value.null then Value.str "" else v
      | none => Value.str "")

/-- The loop body of `rowArrayToObject`: for ascending column position `i`,
set `obj[cols[i]] := (i < arr.length) ? arr[i] : null`. -/
def buildRowObjAux (arr : List Value) : List String → Nat → Rec → Rec
  | [], _, obj => obj
  | c :: rest, i, obj => buildRowObjAux arr rest (i + 1) (setF obj c (arr.getD i Value.null))

/-- `rowArrayToObject(sheet, arr)`: decode one positional row into a keyed
object (`null` for an unknown sheet). -/
def rowArrayToObject (sheet : String) (arr : List Value) : Option Rec :=
  (colsOf sheet).map (fun cols => buildRowObjAux arr cols 0 [])

/-- One IndexedDB object store: its records plus the auto-increment key
generator.  IndexedDB returns records in key order; no verified claim
observes result order, so the rows are kept as a list in insertion order. -/
structure Table where
  rows : List Rec
  nextId : Int
deriving DecidableEq

/-- The key path of a store, as created in `_openDB`: `'key'` for `profile`,
`'id'` for every other store. -/
def keyPathOf (sheet : String) : String :=
  if sheet == "profile" then "key" else "id"

/-- IndexedDB `store.put(r)`: insert or replace by the store key path. -/
def Table.put (kp : String) (t : Table) (r : Rec) : Table :=
  { rows := t.rows.filter (fun x => !(getF x kp == getF r kp)) ++ [r],
    nextId := t.nextId }

/-- IndexedDB `store.add(r)` on a store with key path `id` and
auto-increment: when the record carries no `id`, a fresh key is generated
and injected into the stored record; an explicit key is kept, failing
(`none`, the rejected request) when the key already exists or is not a
valid key. -/
def Table.add (t : Table) (r : Rec) : Option (Table × Value) :=
  match getF? r "id" with
  | none =>
    some ({ rows := t.rows ++ [setF r "id" (Value.num t.nextId)],
            nextId := t.nextId + 1 }, Value.num t.nextId)
  | some (Value.num k) =>
    if t.rows.any (fun x => getF x "id" == Value.num k) then none
    else some ({ rows := t.rows ++ [r], nextId := max t.nextId (k + 1) }, Value.num k)
  | some (Value.str s) =>
    if t.rows.any (fun x => getF x "id" == Value.str s) then none
    else some ({ rows := t.rows ++ [r], nextId := t.nextId }, Value.str s)
  | some _ => none

/-- The set of object stores of the database, by name. -/
abbrev Stores := List (String × Table)

/-- Look a store up by name (an absent store reads as empty; the code only
ever opens the stores created in `_openDB`). -/
def getTable (ss : Stores) (sheet : String) : Table :=
  ((ss.find? (fun p => p.1 == sheet)).map (fun p => p.2)).getD ⟨[], 1⟩

/-- Replace one store.  Store order is not observable. -/
def setTable (ss : Stores) (sheet : String) (t : Table) : Stores :=
  ss.filter (fun p => p.1 != sheet) ++ [(sheet, t)]

/-- A sync action as enqueued by the data layer (`'append' | 'update' |
'delete'`); these three are the only actions `_enqueue` is ever called
with, so the `default:` arm of `_pushToSheets` is unreachable. -/
inductive Action where
  | append : Action
  | update : Action
  | delete : Action
deriving DecidableEq

/-- One `sync_queue` entry, as built by `_enqueue` (with the auto-increment
queue id made explicit). -/
structure QueueEntry where
  id : Nat
  sheet : String
  action : Action
  data : Rec
  rowIndex : Value
  timestamp : Int
  retries : Nat
deriving DecidableEq

/-- The `sync_queue` store: entries plus the auto-increment id counter. -/
structure QTable where
  entries : List QueueEntry
  nextId : Nat
deriving DecidableEq

/-- `_enqueue(sheet, action, data, rowIndex)`. -/
def QTable.enqueue (q : QTable) (sheet : String) (action : Action) (data : Rec)
    (rowIndex : Value) (now : Int) : QTable :=
  { entries := q.entries ++
      [{ id := q.nextId, sheet := sheet, action := action, data := data,
         rowIndex := jsOr rowIndex Value.null, timestamp := now, retries := 0 }],
    nextId := q.nextId + 1 }

/-- One request to the remote gateway, as assembled by `_pushToSheets`. -/
inductive Call where
  | append (sheet : String) (rows : List (List Value)) : Call
  | write (sheet : String) (rows : List (List Value)) : Call
  | update (sheet : String) (rowIndex : Value) (row : List Value) : Call
  | delete (sheet : String) (rowIndex : Value) : Call
deriving DecidableEq

/-- The body of `_pushToSheets(queueItem)`: which gateway request a queue
entry is transmitted as.  The row index is the JS fallback chain
`rowIndex || data._rowIndex || data._sheetRowIndex || null`. -/
def mkCall (e : QueueEntry) : Call :=
  match e.action with
  | Action.append => Call.append e.sheet [objectToRowArray e.sheet e.data]
  | Action.update =>
    if e.sheet == "profile" then Call.write e.sheet [objectToRowArray e.sheet e.data]
    else Call.update e.sheet
      (jsOr (jsOr (jsOr e.rowIndex (getF e.data "_rowIndex"))
        (getF e.data "_sheetRowIndex")) Value.null)
      (objectToRowArray e.sheet e.data)
  | Action.delete =>
    Call.delete e.sheet
      (jsOr (jsOr (jsOr e.rowIndex (getF e.data "_rowIndex"))
        (getF e.data "_sheetRowIndex")) Value.null)

/-- The outcome of one transmission attempt: `{success:true}`,
`{success:false}`, or a thrown transport/network error. -/
inductive PushResult where
  | ok : PushResult
  | rejected : PushResult
  | netError : PushResult
deriving DecidableEq

/-- `_markSynced(sheet, data)`: after an accepted push, set `_synced=true`
on the local record addressed by the store key (`data.key` for `profile`,
else `data.id`); a no-op when `data.id` is undefined or the record is
gone. -/
def markSynced (ss : Stores) (sheet : String) (data : Rec) : Stores :=
  match getF? data "id" with
  | none => ss
  | some _ =>
    let kp := keyPathOf sheet
    let key := if sheet == "profile" then getF data "key" else getF data "id"
    let t := getTable ss sheet
    match t.rows.find? (fun r => getF r kp == key) with
    | none => ss
    | some rec0 => setTable ss sheet (Table.put kp t (setF rec0 "_synced" (Value.bool true)))

/-- `_purgeDeleted(sheet, data)`: physically remove the record addressed by
the store key from its table. -/
def purgeDeleted (ss : Stores) (sheet : String) (data : Rec) : Stores :=
  let kp := keyPathOf sheet
  match (if sheet == "profile" then getF? data "key" else getF? data "id") with
  | none => ss
  | some key =>
    let t := getTable ss sheet
    setTable ss sheet { rows := t.rows.filter (fun r => !(getF r kp == key)),
                        nextId := t.nextId }

/-- The running state of one push phase of `syncNow`: the queue entries that
remain queued at the end of the cycle, the object stores, the `pushed` and
`errors` counters, and the ordered trace of gateway transmissions issued
(queue entry id paired with the request). -/
structure DrainState where
  remaining : List QueueEntry
  stores : Stores
  pushed : Nat
  errors : Nat
  calls : List (Nat × Call)
deriving DecidableEq

/-- `item.retries = (currentRetries || 0) + 1` of `_incrementRetries`. -/
def bumpRetries (e : QueueEntry) : QueueEntry := { e with retries := e.retries + 1 }

/-- The `for (const item of queueItems)` loop of `syncNow` (step 2), over the
queue already sorted by id.  `gw` is the remote gateway oracle giving the
outcome of each transmission.  Per entry: retry-exhausted entries are
removed and counted as errors without transmission; `{success:true}` marks
the source record synced, removes the entry, and purges soft-deleted
records; `{success:false}` bumps the retry counter, keeps the entry queued
and continues; a thrown network error bumps the retry counter and breaks
out of the loop, leaving all unprocessed entries queued. -/
def drainQueue (gw : Call → PushResult) : List QueueEntry → DrainState → DrainState
  | [], st => st
  | e :: rest, st =>
    if MAX_RETRIES ≤ e.retries then
      drainQueue gw rest { st with errors := st.errors + 1 }
    else
      match gw (mkCall e) with
      | PushResult.ok =>
        let ss1 := markSynced st.stores e.sheet e.data
        let ss2 := if e.action = Action.delete then purgeDeleted ss1 e.sheet e.data else ss1
        drainQueue gw rest
          { st with stores := ss2, pushed := st.pushed + 1,
                    calls := st.calls ++ [(e.id, mkCall e)] }
      | PushResult.rejected =>
        drainQueue gw rest
          { st with remaining := st.remaining ++ [bumpRetries e],
                    errors := st.errors + 1,
                    calls := st.calls ++ [(e.id, mkCall e)] }
      | PushResult.netError =>
        { st with remaining := st.remaining ++ (bumpRetries e :: rest),
                  errors := st.errors + 1,
                  calls := st.calls ++ [(e.id, mkCall e)] }

/-- Stable insertion into a list sorted by ascending queue id. -/
def insertById (e : QueueEntry) : List QueueEntry → List QueueEntry
  | [] => [e]
  | x :: xs => if e.id ≤ x.id then e :: x :: xs else x :: insertById e xs

/-- `queueItems.sort((a, b) => a.id - b.id)`: sort the queue read from the
store into ascending id order. -/
def sortById : List QueueEntry → List QueueEntry
  | [] => []
  | x :: xs => insertById x (sortById xs)

/-- The drain state at the start of a cycle. -/
def initDrain (ss : Stores) : DrainState :=
  { remaining := [], stores := ss, pushed := 0, errors := 0, calls := [] }

/-- The push phase of `syncNow` (steps 1 and 2): read the whole queue, sort
it by ascending id, and drain it against the gateway. -/
def syncNowPush (gw : Call → PushResult) (ss : Stores) (q : QTable) : DrainState :=
  drainQueue gw (sortById q.entries) (initDrain ss)

/-- The per-sheet natural-key columns of `_findMatchingRecord`
(`naturalKeys[sheet] || ['date']`). -/
def naturalKeysOf (sheet : String) : List String :=
  let table : List (String × List String) :=
    [ ("health", ["date"]),
      ("medications", ["date", "name", "time"]),
      ("appointments", ["date", "time", "doctor"]),
      ("fitness", ["date", "type", "exercise"]),
      ("nutrition", ["date", "meal", "food"]),
      ("water", ["date", "time"]),
      ("sleep", ["date"]),
      ("mood", ["date", "time"]),
      ("meditation", ["date", "type"]),
      ("habits", ["date", "habit_id"]) ]
  (((table.find? (fun p => p.1 == sheet)).map (fun p => p.2)).getD ["date"])

/-- The natural-key string of one field:
`(x !== undefined && x !== null) ? String(x) : ''`. -/
def nkString (v : Option Value) : String :=
  match v with
  | some w => if w = Value.null then "" else valueToString w
  | none => ""

/-- The natural-key comparison of `_findMatchingRecord`: every key column
must match as a string. -/
def nkMatch (keys : List String) (cand obj : Rec) : Bool :=
  keys.all (fun k => nkString (getF? cand k) == nkString (getF? obj k))

/-- `_findMatchingRecord(db, sheet, obj)`: locate the local record a pulled
row corresponds to.  `profile` matches by `key`; `habit_defs` and `goals`
by `id` (when truthy); date-indexed sheets scan the records of the same
date for a natural-key match; anything else matches nothing. -/
def findMatchingRecord (t : Table) (sheet : String) (obj : Rec) : Option Rec :=
  if sheet == "profile" then
    t.rows.find? (fun r => getF r "key" == getF obj "key")
  else if sheet == "habit_defs" || sheet == "goals" then
    if truthy (getF obj "id") then
      t.rows.find? (fun r => getF r "id" == getF obj "id")
    else none
  else if truthy (getF obj "date") && DATE_INDEXED_STORES.contains sheet then
    let candidates := t.rows.filter (fun r => getF r "date" == getF obj "date")
    candidates.find? (fun cand => nkMatch (naturalKeysOf sheet) cand obj)
  else none

/-- The merge-time stamping of a decoded pulled row in `_pullFromSheets`:
`obj._sheetRowIndex = i; obj._synced = true; obj._modified = Date.now();
obj._deleted = false`. -/
def stampPulled (obj0 : Rec) (i : Nat) (now : Int) : Rec :=
  setF (setF (setF (setF obj0 "_sheetRowIndex" (Value.num (Int.ofNat i)))
    "_synced" (Value.bool true)) "_modified" (Value.num now)) "_deleted" (Value.bool false)

/-- The record written by the remote-wins branch of `_pullFromSheets`:
`Object.assign({}, match, obj, { id: match.id, _rowIndex: obj._sheetRowIndex })`. -/
def remoteWinsRecord (m obj : Rec) (i : Nat) : Rec :=
  setF (setF (assign m obj) "id" (getF m "id")) "_rowIndex" (Value.num (Int.ofNat i))

/-- The body of the merge loop of `_pullFromSheets` for the row at position
`i`: decode (skipping undecodable rows), stamp, find a local match; with no
match insert (keyed `put` for `profile`/`habit_defs`/`goals`, auto-increment
`add` otherwise); with a match keep the local record untouched when it is
unsynced and strictly newer than the merge stamp, otherwise overwrite it
with the remote fields, preserving the local primary key.  Returns the new
table and the number of records merged (0 or 1). -/
def mergeRow (sheet : String) (now : Int) (t : Table) (i : Nat)
    (rowArr : List Value) : Table × Nat :=
  match rowArrayToObject sheet rowArr with
  | none => (t, 0)
  | some obj0 =>
    let obj := stampPulled obj0 i now
    match findMatchingRecord t sheet obj with
    | none =>
      if sheet == "profile" || sheet == "habit_defs" || sheet == "goals" then
        (Table.put (keyPathOf sheet) t obj, 1)
      else
        match Table.add t obj with
        | some (t', _) => (t', 1)
        | none => (t, 0)
    | some m =>
      if getF m "_synced" == Value.bool false && jsGt (getF m "_modified") (Value.num now) then
        (t, 0)
      else
        (Table.put (keyPathOf sheet) t (remoteWinsRecord m obj i), 1)

/-- One merge step of `_pullFromSheets` lifted to the whole database state:
the pull only ever writes the pulled sheet's store and never touches the
`sync_queue` store. -/
def pullMergeRow (sheet : String) (now : Int) (ss : Stores) (q : QTable)
    (i : Nat) (rowArr : List Value) : (Stores × QTable) × Nat :=
  let r := mergeRow sheet now (getTable ss sheet) i rowArr
  ((setTable ss sheet r.1, q), r.2)

/-- The options object of `DataStore.get` (`date`, `from`, `to`, `limit`;
an omitted option is `null` here, indistinguishable from `undefined` at
every use site, all of which are truthiness tests). -/
structure GetOpts where
  dateO : Value
  fromO : Value
  toO : Value
  limitO : Value
deriving DecidableEq

/-- IndexedDB key comparison restricted to the valid keys that occur
(strings and numbers; numbers order below all strings). -/
def keyLe (a b : Value) : Bool :=
  match a, b with
  | Value.num x, Value.num y => x ≤ y
  | Value.num _, Value.str _ => true
  | Value.str _, Value.num _ => false
  | Value.str x, Value.str y => x ≤ y
  | _, _ => false

/-- Whether a record is returned by `index('date').getAll(IDBKeyRange.bound
(lo, hi))`: its `date` property is a valid key inside the inclusive
bounds. -/
def dateKeyInRange (d : Option Value) (lo hi : Value) : Bool :=
  match d with
  | some w =>
    (match w with
     | Value.num _ => true
     | Value.str _ => true
     | _ => false) && keyLe lo w && keyLe w hi
  | none => false

/-- `DataStore.get(sheet, options)` as a pure function of the stores: range
selection by the date index when both bounds are truthy and the sheet is
date-indexed, then the soft-delete filter, then the limit.  (The background
stale-pull side effect is connectivity-dependent and does not change the
returned rows.) -/
def DataStore.get (sheet : String) (ss : Stores) (opts : GetOpts) : List Rec :=
  let t := getTable ss sheet
  let lo := jsOr (jsOr opts.dateO opts.fromO) Value.null
  let hi := jsOr (jsOr opts.dateO opts.toO) Value.null
  let results :=
    if truthy lo && truthy hi && DATE_INDEXED_STORES.contains sheet then
      t.rows.filter (fun r => dateKeyInRange (getF? r "date") lo hi)
    else t.rows
  let results2 := results.filter (fun r => !truthy (getF r "_deleted"))
  if truthy opts.limitO && jsGt opts.limitO (Value.num 0) then
    match opts.limitO with
    | Value.num n => results2.take n.toNat
    | _ => results2
  else results2

/-- `DataStore.save(sheet, row)`: stamp `_synced=false, _modified=now,
_deleted=false`, `add` to the sheet's store (propagating a rejected add as
`none`), inject the generated id into the returned record, and enqueue one
`append` entry for it.  Returns the new stores, the new queue and the saved
record. -/
def saveRecord (row : Rec) (now : Int) : Rec :=
  setF (setF (setF row "_synced" (Value.bool false))
    "_modified" (Value.num now)) "_deleted" (Value.bool false)

def DataStore.save (sheet : String) (ss : Stores) (q : QTable) (row : Rec)
    (now : Int) : Option (Stores × QTable × Rec) :=
  let record := saveRecord row now
  match Table.add (getTable ss sheet) record with
  | none => none
  | some (t', idv) =>
    let record' := setF record "id" idv
    let q' := QTable.enqueue q sheet Action.append record' Value.null now
    some (setTable ss sheet t', q', record')

/-- The soft-deleted copy written by `DataStore.delete`: the existing record
with `_deleted: true, _synced: false, _modified: now` assigned onto it. -/
def softDeleted (existing : Rec) (now : Int) : Rec :=
  setF (setF (setF existing "_deleted" (Value.bool true))
    "_synced" (Value.bool false)) "_modified" (Value.num now)

/-- `DataStore.delete(sheet, id)`: look the record up by the store key;
absent keys report `false`; otherwise soft-delete (`_deleted=true,
_synced=false, _modified=now`), write back, and enqueue one `delete` entry
carrying `deleted._rowIndex || null`. -/
def DataStore.delete (sheet : String) (ss : Stores) (q : QTable) (key : Value)
    (now : Int) : Stores × QTable × Bool :=
  let kp := keyPathOf sheet
  let t := getTable ss sheet
  match t.rows.find? (fun r => getF r kp == key) with
  | none => (ss, q, false)
  | some existing =>
    let deleted := softDeleted existing now
    let ss' := setTable ss sheet (Table.put kp t deleted)
    let q' := QTable.enqueue q sheet Action.delete deleted
      (jsOr (getF deleted "_rowIndex") Value.null) now
    (ss', q', true)


/-- Fixture: a pending append entry with queue id 1. -/
def exEntry1 : QueueEntry :=
  ⟨1, "health", Action.append, [("date", Value.str "2026-02-12")], Value.null, 50, 0⟩

/-- Fixture: a pending append entry with queue id 2. -/
def exEntry2 : QueueEntry :=
  ⟨2, "health", Action.append, [("date", Value.str "2026-02-13")], Value.null, 60, 0⟩

/-- Fixture: entry 1 after three failed attempts. -/
def exEntry1Worn : QueueEntry :=
  ⟨1, "health", Action.append, [("date", Value.str "2026-02-12")], Value.null, 50, 3⟩

/-- Fixture: a local health record, unsynced and modified at time 1000. -/
def exLocalNewer : Rec :=
  [("id", Value.num 5), ("date", Value.str "2026-02-12"),
   ("weight_kg", Value.num 70), ("_synced", Value.bool false),
   ("_modified", Value.num 1000)]

/-- Fixture: a health table holding only `exLocalNewer`. -/
def exTableNewer : Table := ⟨[exLocalNewer], 6⟩

/-- Fixture: a local health record already synced. -/
def exLocalSynced : Rec :=
  [("id", Value.num 5), ("date", Value.str "2026-02-12"),
   ("weight_kg", Value.num 70), ("_synced", Value.bool true),
   ("_modified", Value.num 1000)]

/-- Fixture: a health table holding only `exLocalSynced`. -/
def exTableSynced : Table := ⟨[exLocalSynced], 6⟩

/-- Fixture: a local health record soft-deleted at time 1000 and not yet
pushed. -/
def exLocalTombstone : Rec :=
  [("id", Value.num 5), ("date", Value.str "2026-02-12"),
   ("weight_kg", Value.num 70), ("_synced", Value.bool false),
   ("_modified", Value.num 1000), ("_deleted", Value.bool true)]

/-- Fixture: stores holding the tombstoned health record. -/
def exStoresTombstone : Stores := [("health", ⟨[exLocalTombstone], 6⟩)]

/-- Fixture: the pending delete entry for the tombstoned record. -/
def exDeleteEntry : QueueEntry :=
  ⟨1, "health", Action.delete, exLocalTombstone, Value.null, 1000, 0⟩

/-- Fixture: a queue holding only the pending delete entry. -/
def exQueueTombstone : QTable := ⟨[exDeleteEntry], 2⟩

/-- Fixture: a stored health record with id 3. -/
def exDelRec : Rec :=
  [("id", Value.num 3), ("date", Value.str "2026-02-12"),
   ("weight_kg", Value.num 75), ("_synced", Value.bool true),
   ("_modified", Value.num 100), ("_deleted", Value.bool false)]

/-- Fixture: stores holding only `exDelRec` in the health table. -/
def exDelStores : Stores := [("health", ⟨[exDelRec], 4⟩)]

/-- Fixture: an empty sync queue. -/
def exDelQueue : QTable := ⟨[], 1⟩

/-- Fixture: the queued delete entry for `exDelRec` after the soft
delete. -/
def exDelPushEntry : QueueEntry :=
  ⟨1, "health", Action.delete, softDeleted exDelRec 1234, Value.null, 1234, 0⟩

/-- The record returned by `DataStore.save` when the store generates the
key: the stamped record with the fresh auto-increment id injected. -/
def savedRecord (sheet : String) (ss : Stores) (row : Rec) (now : Int) : Rec :=
  setF (saveRecord row now) "id" (Value.num (getTable ss sheet).nextId)

/-- Fixture: a fresh health row as the UI would pass it to `save`. -/
def exSaveRow : Rec :=
  [("date", Value.str "2026-02-12"), ("weight_kg", Value.num 75)]

/-- Fixture: stores with an empty health table. -/
def exSaveStores : Stores := [("health", ⟨[], 1⟩)]

/-- Fixture: an empty sync queue for the save scenario. -/
def exSaveQueue : QTable := ⟨[], 1⟩

theorem getF?_setF_self (r : Rec) (k : String) (v : Value) :
    getF? (setF r k v) k = some v := by
  induction r with
  | nil => simp [getF?, setF]
  | cons p r ih =>
    by_cases h : p.1 = k
    · simpa [setF, h] using ih
    · simpa [getF?, setF, List.find?_cons, h] using ih

theorem getF?_setF_ne (r : Rec) (k k' : String) (v : Value) (h : k' ≠ k) :
    getF? (setF r k v) k' = getF? r k' := by
  have hk : ¬ k = k' := fun h2 => h h2.symm
  induction r with
  | nil => simp [getF?, setF, hk]
  | cons p r ih =>
    by_cases hpk : p.1 = k
    · have hpk' : ¬ p.1 = k' := fun h2 => h (h2 ▸ hpk ▸ rfl)
      simpa [getF?, setF, List.find?_cons, hpk, hpk', hk] using ih
    · by_cases hpk' : p.1 = k'
      · simp [getF?, setF, List.find?_cons, hpk, hpk', hk, h]
      · simpa [getF?, setF, List.find?_cons, hpk, hpk', hk] using ih

theorem getF?_eq_none_of_not_mem_keys (r : Rec) (k : String)
    (h : k ∉ r.map Prod.fst) : getF? r k = none := by
  unfold getF?
  rw [List.find?_eq_none.mpr]
  · rfl
  · intro x hx
    simp only [beq_iff_eq]
    exact fun h2 => h (h2 ▸ List.mem_map_of_mem Prod.fst hx)

theorem mem_keys_of_getF?_eq_some (r : Rec) (k : String) (v : Value)
    (h : getF? r k = some v) : k ∈ r.map Prod.fst := by
  unfold getF? at h
  cases hf : r.find? (fun p => p.1 == k) with
  | none => rw [hf] at h; exact absurd h (by simp)
  | some p =>
    have hp := List.find?_some hf
    have hm := List.mem_of_find?_eq_some hf
    simp only [beq_iff_eq] at hp
    exact hp ▸ List.mem_map_of_mem Prod.fst hm

theorem keys_setF (r : Rec) (k : String) (v : Value) :
    (setF r k v).map Prod.fst = (r.map Prod.fst).filter (fun x => x != k) ++ [k] := by
  induction r with
  | nil => simp [setF]
  | cons p r ih =>
    by_cases h : p.1 = k <;>
      simp [setF, List.filter_cons, h, ih, bne_iff_ne]

theorem nodupKeys_setF (r : Rec) (k : String) (v : Value) (h : NodupKeys r) :
    NodupKeys (setF r k v) := by
  unfold NodupKeys at h ⊢
  rw [keys_setF]
  refine List.Nodup.append (h.filter _) (List.nodup_singleton k) ?_
  intro x hx hk
  rw [List.mem_singleton] at hk
  subst hk
  have := (List.mem_filter.mp hx).2
  simp [bne_iff_ne] at this

theorem getF?_assign_of_none (r s : Rec) (k : String) (h : getF? s k = none) :
    getF? (assign r s) k = getF? r k := by
  induction s generalizing r with
  | nil => rfl
  | cons p s ih =>
    have hcons : getF? (p :: s) k = none := h
    unfold getF? at hcons
    rw [List.find?_cons] at hcons
    cases hpk : p.1 == k with
    | true => rw [hpk] at hcons; exact absurd hcons (by simp)
    | false =>
      rw [hpk] at hcons
      have hs : getF? s k = none := hcons
      have hne : k ≠ p.1 := by
        intro h2; rw [h2] at hpk; simp at hpk
      calc getF? (assign r (p :: s)) k
          = getF? (assign (setF r p.1 p.2) s) k := rfl
        _ = getF? (setF r p.1 p.2) k := ih _ hs
        _ = getF? r k := getF?_setF_ne _ _ _ _ hne

theorem getF?_assign_of_some (r s : Rec) (k : String) (v : Value)
    (hnd : NodupKeys s) (h : getF? s k = some v) :
    getF? (assign r s) k = some v := by
  induction s generalizing r with
  | nil => exact absurd h (by simp [getF?])
  | cons p s ih =>
    have hnd' : NodupKeys s := (List.nodup_cons.mp hnd).2
    have hp1 : p.1 ∉ s.map Prod.fst := by
      have := (List.nodup_cons.mp hnd).1
      simpa using this
    unfold getF? at h
    rw [List.find?_cons] at h
    cases hpk : p.1 == k with
    | true =>
      rw [hpk] at h
      have hv : v = p.2 := by
        simp only [Option.map_some] at h
        exact (Option.some.inj h).symm
      have hkeq : p.1 = k := by simpa using hpk
      have hs : getF? s k = none :=
        getF?_eq_none_of_not_mem_keys s k (hkeq ▸ hp1)
      calc getF? (assign r (p :: s)) k
          = getF? (assign (setF r p.1 p.2) s) k := rfl
        _ = getF? (setF r p.1 p.2) k := getF?_assign_of_none _ _ _ hs
        _ = some p.2 := by rw [hkeq]; exact getF?_setF_self _ _ _
        _ = some v := by rw [hv]
    | false =>
      rw [hpk] at h
      exact ih (setF r p.1 p.2) hnd' h

theorem getF?_buildRowObjAux_not_mem (arr : List Value) (cols : List String) (i : Nat)
    (obj : Rec) (c : String) (h : c ∉ cols) :
    getF? (buildRowObjAux arr cols i obj) c = getF? obj c := by
  induction cols generalizing i obj with
  | nil => rfl
  | cons c0 rest ih =>
    have hne : c ≠ c0 := fun h2 => h (h2 ▸ List.mem_cons_self c0 rest)
    have h' : c ∉ rest := fun h2 => h (List.mem_cons_of_mem _ h2)
    calc getF? (buildRowObjAux arr (c0 :: rest) i obj) c
        = getF? (buildRowObjAux arr rest (i + 1) (setF obj c0 (arr.getD i Value.null))) c := rfl
      _ = getF? (setF obj c0 (arr.getD i Value.null)) c := ih (i + 1) _ h'
      _ = getF? obj c := getF?_setF_ne _ _ _ _ hne

theorem nodupKeys_buildRowObjAux (arr : List Value) (cols : List String) (i : Nat)
    (obj : Rec) (h : NodupKeys obj) : NodupKeys (buildRowObjAux arr cols i obj) := by
  induction cols generalizing i obj with
  | nil => exact h
  | cons c0 rest ih => exact ih (i + 1) _ (nodupKeys_setF _ _ _ h)

theorem getF?_buildRowObjAux_map (f : String → Value) (cols : List String)
    (pre : List Value) (obj : Rec) (c : String) (h : c ∈ cols) :
    getF? (buildRowObjAux (pre ++ cols.map f) cols pre.length obj) c = some (f c) := by
  induction cols generalizing pre obj with
  | nil => cases h
  | cons c0 rest ih =>
    have harr : (pre ++ (c0 :: rest).map f).getD pre.length Value.null = f c0 := by
      simp [List.getD_eq_getElem?_getD, List.getElem?_append_right (Nat.le_refl pre.length)]
    have hstep : buildRowObjAux (pre ++ (c0 :: rest).map f) (c0 :: rest) pre.length obj
        = buildRowObjAux (pre ++ (c0 :: rest).map f) rest (pre.length + 1)
            (setF obj c0 (f c0)) := by
      rw [buildRowObjAux, harr]
    have harr2 : pre ++ (c0 :: rest).map f = (pre ++ [f c0]) ++ rest.map f := by simp
    have hlen : pre.length + 1 = (pre ++ [f c0]).length := by simp
    by_cases hc : c ∈ rest
    · rw [hstep, harr2, hlen]
      exact ih (pre ++ [f c0]) (setF obj c0 (f c0)) hc
    · have hc0 : c = c0 := by
        rcases List.mem_cons.mp h with h1 | h1
        · exact h1
        · exact absurd h1 hc
      rw [hstep, getF?_buildRowObjAux_not_mem _ _ _ _ _ hc, hc0]
      exact getF?_setF_self _ _ _

theorem drainQueue_cons_exhausted (gw : Call → PushResult) (e : QueueEntry)
    (rest : List QueueEntry) (st : DrainState) (h : MAX_RETRIES ≤ e.retries) :
    drainQueue gw (e :: rest) st =
      drainQueue gw rest { st with errors := st.errors + 1 } := by
  rw [drainQueue, if_pos h]

theorem drainQueue_cons_ok (gw : Call → PushResult) (e : QueueEntry)
    (rest : List QueueEntry) (st : DrainState) (h : ¬ MAX_RETRIES ≤ e.retries)
    (hgw : gw (mkCall e) = PushResult.ok) :
    drainQueue gw (e :: rest) st =
      drainQueue gw rest { st with
        stores := (if e.action = Action.delete
          then purgeDeleted (markSynced st.stores e.sheet e.data) e.sheet e.data
          else markSynced st.stores e.sheet e.data),
        pushed := st.pushed + 1,
        calls := st.calls ++ [(e.id, mkCall e)] } := by
  rw [drainQueue, if_neg h, hgw]

theorem drainQueue_cons_rejected (gw : Call → PushResult) (e : QueueEntry)
    (rest : List QueueEntry) (st : DrainState) (h : ¬ MAX_RETRIES ≤ e.retries)
    (hgw : gw (mkCall e) = PushResult.rejected) :
    drainQueue gw (e :: rest) st =
      drainQueue gw rest { st with
        remaining := st.remaining ++ [bumpRetries e],
        errors := st.errors + 1,
        calls := st.calls ++ [(e.id, mkCall e)] } := by
  rw [drainQueue, if_neg h, hgw]

theorem drainQueue_cons_netError (gw : Call → PushResult) (e : QueueEntry)
    (rest : List QueueEntry) (st : DrainState) (h : ¬ MAX_RETRIES ≤ e.retries)
    (hgw : gw (mkCall e) = PushResult.netError) :
    drainQueue gw (e :: rest) st =
      { st with
        remaining := st.remaining ++ (bumpRetries e :: rest),
        errors := st.errors + 1,
        calls := st.calls ++ [(e.id, mkCall e)] } := by
  rw [drainQueue, if_neg h, hgw]

theorem drainQueue_remaining_decomp (gw : Call → PushResult) (l : List QueueEntry)
    (st : DrainState) :
    ∃ s, (drainQueue gw l st).remaining = st.remaining ++ s ∧
      List.Sublist (s.map (fun e => e.id)) (l.map (fun e => e.id)) := by
  induction l generalizing st with
  | nil => exact ⟨[], by simp [drainQueue], by simp⟩
  | cons e rest ih =>
    by_cases hge : MAX_RETRIES ≤ e.retries
    · obtain ⟨s, hs, hsub⟩ := ih { st with errors := st.errors + 1 }
      exact ⟨s, by rw [drainQueue_cons_exhausted gw e rest st hge]; exact hs, hsub.cons _⟩
    · cases hgw : gw (mkCall e) with
      | ok =>
        obtain ⟨s, hs, hsub⟩ := ih { st with
          stores := (if e.action = Action.delete
            then purgeDeleted (markSynced st.stores e.sheet e.data) e.sheet e.data
            else markSynced st.stores e.sheet e.data),
          pushed := st.pushed + 1,
          calls := st.calls ++ [(e.id, mkCall e)] }
        exact ⟨s, by rw [drainQueue_cons_ok gw e rest st hge hgw]; exact hs, hsub.cons _⟩
      | rejected =>
        obtain ⟨s, hs, hsub⟩ := ih { st with
          remaining := st.remaining ++ [bumpRetries e],
          errors := st.errors + 1,
          calls := st.calls ++ [(e.id, mkCall e)] }
        refine ⟨bumpRetries e :: s, ?_, ?_⟩
        · rw [drainQueue_cons_rejected gw e rest st hge hgw, hs]
          simp
        · exact (List.cons_sublist_cons).mpr hsub
      | netError =>
        refine ⟨bumpRetries e :: rest, ?_, ?_⟩
        · rw [drainQueue_cons_netError gw e rest st hge hgw]
        · simp [bumpRetries]

theorem drainQueue_calls_decomp (gw : Call → PushResult) (l : List QueueEntry)
    (st : DrainState) :
    ∃ s, (drainQueue gw l st).calls = st.calls ++ s ∧
      List.Sublist (s.map Prod.fst) (l.map (fun e => e.id)) := by
  induction l generalizing st with
  | nil => exact ⟨[], by simp [drainQueue], by simp⟩
  | cons e rest ih =>
    by_cases hge : MAX_RETRIES ≤ e.retries
    · obtain ⟨s, hs, hsub⟩ := ih { st with errors := st.errors + 1 }
      exact ⟨s, by rw [drainQueue_cons_exhausted gw e rest st hge]; exact hs, hsub.cons _⟩
    · cases hgw : gw (mkCall e) with
      | ok =>
        obtain ⟨s, hs, hsub⟩ := ih { st with
          stores := (if e.action = Action.delete
            then purgeDeleted (markSynced st.stores e.sheet e.data) e.sheet e.data
            else markSynced st.stores e.sheet e.data),
          pushed := st.pushed + 1,
          calls := st.calls ++ [(e.id, mkCall e)] }
        refine ⟨(e.id, mkCall e) :: s, ?_, (List.cons_sublist_cons).mpr hsub⟩
        rw [drainQueue_cons_ok gw e rest st hge hgw, hs]
        simp
      | rejected =>
        obtain ⟨s, hs, hsub⟩ := ih { st with
          remaining := st.remaining ++ [bumpRetries e],
          errors := st.errors + 1,
          calls := st.calls ++ [(e.id, mkCall e)] }
        refine ⟨(e.id, mkCall e) :: s, ?_, (List.cons_sublist_cons).mpr hsub⟩
        rw [drainQueue_cons_rejected gw e rest st hge hgw, hs]
        simp
      | netError =>
        refine ⟨[(e.id, mkCall e)], ?_, ?_⟩
        · rw [drainQueue_cons_netError gw e rest st hge hgw]
        · simp

theorem perm_insertById (e : QueueEntry) (l : List QueueEntry) :
    List.Perm (insertById e l) (e :: l) := by
  induction l with
  | nil => simp [insertById]
  | cons x xs ih =>
    rw [insertById]
    by_cases h : e.id ≤ x.id
    · rw [if_pos h]
    · rw [if_neg h]
      exact List.Perm.trans (List.Perm.cons x ih) (List.Perm.swap e x xs)

theorem perm_sortById (l : List QueueEntry) : List.Perm (sortById l) l := by
  induction l with
  | nil => simp [sortById]
  | cons x xs ih =>
    exact List.Perm.trans (perm_insertById x (sortById xs)) (List.Perm.cons x ih)

theorem sorted_insertById (e : QueueEntry) (l : List QueueEntry)
    (h : List.Pairwise (fun a b => a.id ≤ b.id) l) :
    List.Pairwise (fun a b => a.id ≤ b.id) (insertById e l) := by
  induction l with
  | nil => simp [insertById]
  | cons x xs ih =>
    rcases List.pairwise_cons.mp h with ⟨hx, hxs⟩
    rw [insertById]
    by_cases hle : e.id ≤ x.id
    · rw [if_pos hle]
      refine List.pairwise_cons.mpr ⟨?_, h⟩
      intro b hb
      rcases List.mem_cons.mp hb with rfl | hb'
      · exact hle
      · exact Nat.le_trans hle (hx b hb')
    · rw [if_neg hle]
      refine List.pairwise_cons.mpr ⟨?_, ih hxs⟩
      intro b hb
      have hmem := (perm_insertById e xs).mem_iff.mp hb
      rcases List.mem_cons.mp hmem with rfl | hb'
      · exact Nat.le_of_not_le hle
      · exact hx b hb'

theorem sorted_sortById (l : List QueueEntry) :
    List.Pairwise (fun a b => a.id ≤ b.id) (sortById l) := by
  induction l with
  | nil => simp [sortById]
  | cons x xs ih => exact sorted_insertById x (sortById xs) ih

theorem pair_sublist_of_pairwise_lt (L : List Nat) (a b : Nat)
    (h : List.Pairwise (fun x y => x < y) L) (ha : a ∈ L) (hb : b ∈ L)
    (hab : a < b) : List.Sublist [a, b] L := by
  induction L with
  | nil => cases ha
  | cons x xs ih =>
    rcases List.pairwise_cons.mp h with ⟨hx, hxs⟩
    rcases List.mem_cons.mp ha with rfl | ha'
    · have hbx : b ∈ xs := by
        rcases List.mem_cons.mp hb with rfl | hb'
        · exact absurd hab (Nat.lt_irrefl b)
        · exact hb'
      exact (List.cons_sublist_cons).mpr (List.singleton_sublist.mpr hbx)
    · have hbxs : b ∈ xs := by
        rcases List.mem_cons.mp hb with rfl | hb'
        · exact absurd (Nat.lt_trans (hx a ha') hab) (Nat.lt_irrefl b)
        · exact hb'
      exact (ih hxs ha' hbxs).cons x

theorem syncNowPush_calls_pairwise_lt (gw : Call → PushResult) (ss : Stores)
    (q : QTable) (hnd : (q.entries.map (fun e => e.id)).Nodup) :
    List.Pairwise (fun x y => x < y)
      ((syncNowPush gw ss q).calls.map Prod.fst) := by
  obtain ⟨s, hs, hsub⟩ := drainQueue_calls_decomp gw (sortById q.entries) (initDrain ss)
  have hcalls : (syncNowPush gw ss q).calls = s := by
    have : (initDrain ss).calls = [] := rfl
    rw [syncNowPush, hs, this, List.nil_append]
  rw [hcalls]
  have hperm : List.Perm ((sortById q.entries).map (fun e => e.id))
      (q.entries.map (fun e => e.id)) := (perm_sortById q.entries).map _
  have hnd' : ((sortById q.entries).map (fun e => e.id)).Nodup :=
    hperm.nodup_iff.mpr hnd
  have hle : List.Pairwise (fun x y => x ≤ y)
      ((sortById q.entries).map (fun e => e.id)) :=
    List.pairwise_map.mpr (sorted_sortById q.entries)
  have hlt : List.Pairwise (fun x y => x < y)
      ((sortById q.entries).map (fun e => e.id)) := by
    refine (hle.and hnd').imp ?_
    intro x y hxy
    exact Nat.lt_of_le_of_ne hxy.1 hxy.2
  exact hlt.sublist hsub

/-- C1: during a push phase, a transport/network error on one queue entry
increments that entry's retry counter, counts one error, issues no further
gateway transmission in the cycle, and leaves the failing entry and all
unprocessed entries in the queue (stores untouched). -/
theorem syncNow_halt_on_network_error (gw : Call → PushResult) (e : QueueEntry)
    (rest : List QueueEntry) (st : DrainState)
    (hretry : e.retries < MAX_RETRIES)
    (hgw : gw (mkCall e) = PushResult.netError) :
    (drainQueue gw (e :: rest) st).remaining =
        st.remaining ++ (bumpRetries e :: rest) ∧
    (bumpRetries e).retries = e.retries + 1 ∧
    (drainQueue gw (e :: rest) st).errors = st.errors + 1 ∧
    (drainQueue gw (e :: rest) st).calls = st.calls ++ [(e.id, mkCall e)] ∧
    (drainQueue gw (e :: rest) st).stores = st.stores := by
  have heq := drainQueue_cons_netError gw e rest st (Nat.not_le.mpr hretry) hgw
  rw [heq]
  exact ⟨rfl, rfl, rfl, rfl, rfl⟩

theorem syncNow_halt_on_network_error_witness :
    (drainQueue (fun _ => PushResult.netError)
      ((⟨1, "health", Action.append, [("date", Value.str "2026-02-12")],
          Value.null, 50, 0⟩ : QueueEntry) ::
        [⟨2, "health", Action.append, [("date", Value.str "2026-02-13")],
          Value.null, 60, 0⟩]) (initDrain [])).remaining =
      (initDrain []).remaining ++
        (bumpRetries ⟨1, "health", Action.append, [("date", Value.str "2026-02-12")],
          Value.null, 50, 0⟩ ::
          [⟨2, "health", Action.append, [("date", Value.str "2026-02-13")],
            Value.null, 60, 0⟩]) ∧
    (bumpRetries ⟨1, "health", Action.append, [("date", Value.str "2026-02-12")],
      Value.null, 50, 0⟩).retries =
      (⟨1, "health", Action.append, [("date", Value.str "2026-02-12")],
        Value.null, 50, 0⟩ : QueueEntry).retries + 1 ∧
    (drainQueue (fun _ => PushResult.netError)
      ((⟨1, "health", Action.append, [("date", Value.str "2026-02-12")],
          Value.null, 50, 0⟩ : QueueEntry) ::
        [⟨2, "health", Action.append, [("date", Value.str "2026-02-13")],
          Value.null, 60, 0⟩]) (initDrain [])).errors = (initDrain []).errors + 1 ∧
    (drainQueue (fun _ => PushResult.netError)
      ((⟨1, "health", Action.append, [("date", Value.str "2026-02-12")],
          Value.null, 50, 0⟩ : QueueEntry) ::
        [⟨2, "health", Action.append, [("date", Value.str "2026-02-13")],
          Value.null, 60, 0⟩]) (initDrain [])).calls =
      (initDrain []).calls ++
        [(1, mkCall ⟨1, "health", Action.append, [("date", Value.str "2026-02-12")],
          Value.null, 50, 0⟩)] ∧
    (drainQueue (fun _ => PushResult.netError)
      ((⟨1, "health", Action.append, [("date", Value.str "2026-02-12")],
          Value.null, 50, 0⟩ : QueueEntry) ::
        [⟨2, "health", Action.append, [("date", Value.str "2026-02-13")],
          Value.null, 60, 0⟩]) (initDrain [])).stores = (initDrain []).stores :=
  syncNow_halt_on_network_error _ _ _ _ (by decide) rfl

/-- C2: the push phase processes queue entries in ascending id order; two
entries both transmitted in a cycle appear in the gateway trace in id
order. -/
theorem syncNow_fifo_order (gw : Call → PushResult) (ss : Stores) (q : QTable)
    (e1 e2 : QueueEntry)
    (hnd : (q.entries.map (fun e => e.id)).Nodup)
    (_h1 : e1 ∈ q.entries) (_h2 : e2 ∈ q.entries) (hlt : e1.id < e2.id)
    (ht1 : e1.id ∈ (syncNowPush gw ss q).calls.map Prod.fst)
    (ht2 : e2.id ∈ (syncNowPush gw ss q).calls.map Prod.fst) :
    List.Sublist [e1.id, e2.id] ((syncNowPush gw ss q).calls.map Prod.fst) :=
  pair_sublist_of_pairwise_lt _ _ _
    (syncNowPush_calls_pairwise_lt gw ss q hnd) ht1 ht2 hlt

theorem syncNow_fifo_order_witness :
    List.Sublist
      [(⟨1, "health", Action.append, [("date", Value.str "2026-02-12")],
          Value.null, 50, 0⟩ : QueueEntry).id,
       (⟨2, "health", Action.append, [("date", Value.str "2026-02-13")],
          Value.null, 60, 0⟩ : QueueEntry).id]
      ((syncNowPush (fun _ => PushResult.ok) []
        ⟨[⟨2, "health", Action.append, [("date", Value.str "2026-02-13")],
            Value.null, 60, 0⟩,
          ⟨1, "health", Action.append, [("date", Value.str "2026-02-12")],
            Value.null, 50, 0⟩], 3⟩).calls.map Prod.fst) :=
  syncNow_fifo_order _ _ _ _ _ (by decide) (by decide) (by decide) (by decide)
    (by decide) (by decide)

/-- C3: an entry whose retry counter has reached MAX_RETRIES when the drain
reaches it is removed from the queue with one error counted, no gateway
call is issued for it, and the drain continues with the remaining
entries. -/
theorem syncNow_retry_exhaustion (gw : Call → PushResult) (e : QueueEntry)
    (rest : List QueueEntry) (ss : Stores)
    (hret : MAX_RETRIES ≤ e.retries)
    (hfresh : e.id ∉ rest.map (fun x => x.id)) :
    drainQueue gw (e :: rest) (initDrain ss) =
      drainQueue gw rest { initDrain ss with errors := 1 } ∧
    e.id ∉ (drainQueue gw (e :: rest) (initDrain ss)).calls.map Prod.fst ∧
    e.id ∉ (drainQueue gw (e :: rest) (initDrain ss)).remaining.map
      (fun x => x.id) := by
  have heq : drainQueue gw (e :: rest) (initDrain ss) =
      drainQueue gw rest { initDrain ss with errors := 1 } :=
    drainQueue_cons_exhausted gw e rest (initDrain ss) hret
  refine ⟨heq, ?_, ?_⟩
  · rw [heq]
    obtain ⟨s, hs, hsub⟩ :=
      drainQueue_calls_decomp gw rest { initDrain ss with errors := 1 }
    rw [hs]
    intro hmem
    have hmem' : e.id ∈ s.map Prod.fst := by
      simpa [initDrain] using hmem
    exact hfresh (hsub.subset hmem')
  · rw [heq]
    obtain ⟨s, hs, hsub⟩ :=
      drainQueue_remaining_decomp gw rest { initDrain ss with errors := 1 }
    rw [hs]
    intro hmem
    have hmem' : e.id ∈ s.map (fun x => x.id) := by
      simpa [initDrain] using hmem
    exact hfresh (hsub.subset hmem')

theorem syncNow_retry_exhaustion_witness :
    drainQueue (fun _ => PushResult.ok) (exEntry1Worn :: [exEntry2]) (initDrain []) =
      drainQueue (fun _ => PushResult.ok) [exEntry2]
        { initDrain [] with errors := 1 } ∧
    exEntry1Worn.id ∉
      (drainQueue (fun _ => PushResult.ok) (exEntry1Worn :: [exEntry2])
        (initDrain [])).calls.map Prod.fst ∧
    exEntry1Worn.id ∉
      (drainQueue (fun _ => PushResult.ok) (exEntry1Worn :: [exEntry2])
        (initDrain [])).remaining.map (fun x => x.id) :=
  syncNow_retry_exhaustion _ _ _ _ (by decide) (by decide)

theorem drainQueue_mem_remaining (gw : Call → PushResult) (l : List QueueEntry)
    (st : DrainState) (x : QueueEntry) (h : x ∈ st.remaining) :
    x ∈ (drainQueue gw l st).remaining := by
  obtain ⟨s, hs, _⟩ := drainQueue_remaining_decomp gw l st
  rw [hs]
  exact List.mem_append_left _ h

/-- C6: a `{success:false}` gateway answer increments the entry's retry
counter, keeps the entry queued, counts one error, and the drain continues
with the subsequent entries of the same cycle. -/
theorem syncNow_rejected_continues (gw : Call → PushResult) (e : QueueEntry)
    (rest : List QueueEntry) (st : DrainState)
    (hretry : e.retries < MAX_RETRIES)
    (hgw : gw (mkCall e) = PushResult.rejected) :
    drainQueue gw (e :: rest) st =
      drainQueue gw rest { st with
        remaining := st.remaining ++ [bumpRetries e],
        errors := st.errors + 1,
        calls := st.calls ++ [(e.id, mkCall e)] } ∧
    (bumpRetries e).retries = e.retries + 1 ∧
    bumpRetries e ∈ (drainQueue gw (e :: rest) st).remaining := by
  have heq := drainQueue_cons_rejected gw e rest st (Nat.not_le.mpr hretry) hgw
  refine ⟨heq, rfl, ?_⟩
  rw [heq]
  apply drainQueue_mem_remaining
  simp

theorem syncNow_rejected_continues_witness :
    drainQueue (fun _ => PushResult.rejected) (exEntry1 :: [exEntry2])
        (initDrain []) =
      drainQueue (fun _ => PushResult.rejected) [exEntry2]
        { initDrain [] with
          remaining := (initDrain []).remaining ++ [bumpRetries exEntry1],
          errors := (initDrain []).errors + 1,
          calls := (initDrain []).calls ++ [(exEntry1.id, mkCall exEntry1)] } ∧
    (bumpRetries exEntry1).retries = exEntry1.retries + 1 ∧
    bumpRetries exEntry1 ∈
      (drainQueue (fun _ => PushResult.rejected) (exEntry1 :: [exEntry2])
        (initDrain [])).remaining :=
  syncNow_rejected_continues _ _ _ _ (by decide) rfl

theorem mergeRow_local_wins_eq (sheet : String) (now : Int) (t : Table) (i : Nat)
    (rowArr : List Value) (obj0 m : Rec)
    (hdec : rowArrayToObject sheet rowArr = some obj0)
    (hm : findMatchingRecord t sheet (stampPulled obj0 i now) = some m)
    (hcond : (getF m "_synced" == Value.bool false &&
      jsGt (getF m "_modified") (Value.num now)) = true) :
    mergeRow sheet now t i rowArr = (t, 0) := by
  rw [mergeRow, hdec]
  dsimp only
  rw [hm]
  dsimp only
  rw [if_pos hcond]

theorem mergeRow_remote_wins_eq (sheet : String) (now : Int) (t : Table) (i : Nat)
    (rowArr : List Value) (obj0 m : Rec)
    (hdec : rowArrayToObject sheet rowArr = some obj0)
    (hm : findMatchingRecord t sheet (stampPulled obj0 i now) = some m)
    (hcond : (getF m "_synced" == Value.bool false &&
      jsGt (getF m "_modified") (Value.num now)) = false) :
    mergeRow sheet now t i rowArr =
      (Table.put (keyPathOf sheet) t
        (remoteWinsRecord m (stampPulled obj0 i now) i), 1) := by
  rw [mergeRow, hdec]
  dsimp only
  rw [hm]
  dsimp only
  rw [if_neg (by simp [hcond])]

/-- C4: pull-merge keeps an unsynced local record whose `_modified` is
strictly newer than the merge stamp of the matching pulled row: the table
is completely unchanged and the pulled row is discarded (merged count 0). -/
theorem pull_merge_local_wins (sheet : String) (now : Int) (t : Table) (i : Nat)
    (rowArr : List Value) (obj0 m : Rec) (mm : Int)
    (hdec : rowArrayToObject sheet rowArr = some obj0)
    (hm : findMatchingRecord t sheet (stampPulled obj0 i now) = some m)
    (hsync : getF m "_synced" = Value.bool false)
    (hmod : getF m "_modified" = Value.num mm)
    (hgt : now < mm) :
    mergeRow sheet now t i rowArr = (t, 0) := by
  apply mergeRow_local_wins_eq sheet now t i rowArr obj0 m hdec hm
  rw [hsync, hmod]
  simp [jsGt, hgt]

theorem pull_merge_local_wins_witness :
    mergeRow "health" 500 exTableNewer 0
      [Value.str "2026-02-12", Value.num 71] = (exTableNewer, 0) :=
  pull_merge_local_wins "health" 500 exTableNewer 0
    [Value.str "2026-02-12", Value.num 71] _ _ 1000 rfl rfl rfl rfl (by decide)

theorem isSome_getF?_setF (r : Rec) (k k' : String) (v : Value)
    (h : (getF? r k').isSome) : (getF? (setF r k v) k').isSome := by
  by_cases hk : k' = k
  · rw [hk, getF?_setF_self]; rfl
  · rw [getF?_setF_ne r k k' v hk]; exact h

theorem isSome_getF?_buildRowObjAux (arr : List Value) (cols : List String)
    (i : Nat) (obj : Rec) (c : String) (h : c ∈ cols) :
    (getF? (buildRowObjAux arr cols i obj) c).isSome := by
  induction cols generalizing i obj with
  | nil => cases h
  | cons c0 rest ih =>
    by_cases hc : c ∈ rest
    · exact ih (i + 1) _ hc
    · have hc0 : c = c0 := by
        rcases List.mem_cons.mp h with h1 | h1
        · exact h1
        · exact absurd h1 hc
      rw [buildRowObjAux, getF?_buildRowObjAux_not_mem _ _ _ _ _ hc, hc0,
        getF?_setF_self]
      rfl

theorem getF?_assign_eq_of_isSome (r s : Rec) (k : String)
    (hnd : NodupKeys s) (h : (getF? s k).isSome) :
    getF? (assign r s) k = getF? s k := by
  cases hv : getF? s k with
  | none => rw [hv] at h; exact absurd h (by simp)
  | some v => exact getF?_assign_of_some r s k v hnd hv

theorem nodupKeys_stampPulled (obj0 : Rec) (i : Nat) (now : Int)
    (h : NodupKeys obj0) : NodupKeys (stampPulled obj0 i now) :=
  nodupKeys_setF _ _ _ (nodupKeys_setF _ _ _ (nodupKeys_setF _ _ _
    (nodupKeys_setF _ _ _ h)))

theorem nodupKeys_of_rowArrayToObject (sheet : String) (arr : List Value)
    (obj0 : Rec) (h : rowArrayToObject sheet arr = some obj0) :
    NodupKeys obj0 := by
  unfold rowArrayToObject at h
  cases hc : colsOf sheet with
  | none => rw [hc] at h; exact absurd h (by simp)
  | some cols =>
    rw [hc] at h
    have h2 : buildRowObjAux arr cols 0 [] = obj0 := Option.some.inj h
    rw [← h2]
    exact nodupKeys_buildRowObjAux arr cols 0 [] List.Pairwise.nil

theorem getF?_stampPulled_synced (obj0 : Rec) (i : Nat) (now : Int) :
    getF? (stampPulled obj0 i now) "_synced" = some (Value.bool true) := by
  unfold stampPulled
  rw [getF?_setF_ne _ _ _ _ (by decide), getF?_setF_ne _ _ _ _ (by decide),
    getF?_setF_self]

theorem getF?_stampPulled_deleted (obj0 : Rec) (i : Nat) (now : Int) :
    getF? (stampPulled obj0 i now) "_deleted" = some (Value.bool false) := by
  unfold stampPulled
  rw [getF?_setF_self]

theorem getF?_stampPulled_col (obj0 : Rec) (i : Nat) (now : Int) (c : String)
    (h1 : c ≠ "_sheetRowIndex") (h2 : c ≠ "_synced") (h3 : c ≠ "_modified")
    (h4 : c ≠ "_deleted") :
    getF? (stampPulled obj0 i now) c = getF? obj0 c := by
  unfold stampPulled
  rw [getF?_setF_ne _ _ _ _ h4, getF?_setF_ne _ _ _ _ h3,
    getF?_setF_ne _ _ _ _ h2, getF?_setF_ne _ _ _ _ h1]

theorem Table.put_mem (kp : String) (t : Table) (r : Rec) :
    r ∈ (Table.put kp t r).rows := by
  unfold Table.put
  exact List.mem_append_right _ (List.mem_singleton.mpr rfl)

theorem getTable_setTable_self (ss : Stores) (sheet : String) (t : Table) :
    getTable (setTable ss sheet t) sheet = t := by
  unfold getTable setTable
  rw [List.find?_append]
  have h1 : (ss.filter (fun p => p.1 != sheet)).find?
      (fun p => p.1 == sheet) = none := by
    rw [List.find?_eq_none]
    intro x hx
    have hxf := (List.mem_filter.mp hx).2
    simp only [bne_iff_ne, ne_eq, decide_eq_true_eq] at hxf
    simp [hxf]
  rw [h1]
  simp

theorem obj0_eq_buildRowObjAux (sheet : String) (arr : List Value) (obj0 : Rec)
    (cols : List String) (hdec : rowArrayToObject sheet arr = some obj0)
    (hcols : colsOf sheet = some cols) : obj0 = buildRowObjAux arr cols 0 [] := by
  unfold rowArrayToObject at hdec
  rw [hcols] at hdec
  exact (Option.some.inj hdec).symm

/-- C5: pull-merge overwrites a matched local record with the remote fields
whenever the local-wins test fails: the store receives the merged record,
whose primary key is the local `id`, whose `_rowIndex` is the pulled row
position, whose `_synced` is true, and whose sheet columns (other than a
primary-key column) carry the pulled values. -/
theorem pull_merge_remote_wins (sheet : String) (now : Int) (t : Table)
    (i : Nat) (rowArr : List Value) (obj0 m : Rec) (cols : List String)
    (hdec : rowArrayToObject sheet rowArr = some obj0)
    (hcols : colsOf sheet = some cols)
    (hm : findMatchingRecord t sheet (stampPulled obj0 i now) = some m)
    (hlw : ¬ (getF m "_synced" = Value.bool false ∧
      jsGt (getF m "_modified") (Value.num now) = true)) :
    mergeRow sheet now t i rowArr =
      (Table.put (keyPathOf sheet) t
        (remoteWinsRecord m (stampPulled obj0 i now) i), 1) ∧
    getF (remoteWinsRecord m (stampPulled obj0 i now) i) "id" = getF m "id" ∧
    getF (remoteWinsRecord m (stampPulled obj0 i now) i) "_rowIndex" =
      Value.num (Int.ofNat i) ∧
    getF (remoteWinsRecord m (stampPulled obj0 i now) i) "_synced" =
      Value.bool true ∧
    (∀ c ∈ cols, c ≠ "id" → c ≠ "_rowIndex" →
      getF? (remoteWinsRecord m (stampPulled obj0 i now) i) c =
        getF? (stampPulled obj0 i now) c) ∧
    remoteWinsRecord m (stampPulled obj0 i now) i ∈
      (mergeRow sheet now t i rowArr).1.rows := by
  have hcond : (getF m "_synced" == Value.bool false &&
      jsGt (getF m "_modified") (Value.num now)) = false := by
    cases hs : (getF m "_synced" == Value.bool false) with
    | false => simp [hs]
    | true =>
      cases hg : jsGt (getF m "_modified") (Value.num now) with
      | false => simp [hs, hg]
      | true => exact absurd ⟨by simpa [beq_iff_eq] using hs, hg⟩ hlw
  have heq := mergeRow_remote_wins_eq sheet now t i rowArr obj0 m hdec hm hcond
  have hnod : NodupKeys (stampPulled obj0 i now) :=
    nodupKeys_stampPulled _ _ _ (nodupKeys_of_rowArrayToObject _ _ _ hdec)
  refine ⟨heq, ?_, ?_, ?_, ?_, ?_⟩
  · have h1 : getF? (remoteWinsRecord m (stampPulled obj0 i now) i) "id" =
        some (getF m "id") := by
      unfold remoteWinsRecord
      rw [getF?_setF_ne _ _ _ _ (by decide), getF?_setF_self]
    unfold getF
    rw [h1]
    rfl
  · have h1 : getF? (remoteWinsRecord m (stampPulled obj0 i now) i)
        "_rowIndex" = some (Value.num (Int.ofNat i)) := by
      unfold remoteWinsRecord
      rw [getF?_setF_self]
    unfold getF
    rw [h1]
    rfl
  · have h1 : getF? (remoteWinsRecord m (stampPulled obj0 i now) i)
        "_synced" = some (Value.bool true) := by
      unfold remoteWinsRecord
      rw [getF?_setF_ne _ _ _ _ (by decide), getF?_setF_ne _ _ _ _ (by decide)]
      exact getF?_assign_of_some m _ "_synced" (Value.bool true) hnod
        (getF?_stampPulled_synced obj0 i now)
    unfold getF
    rw [h1]
    rfl
  · intro c hc h1 h2
    unfold remoteWinsRecord
    rw [getF?_setF_ne _ _ _ _ h2, getF?_setF_ne _ _ _ _ h1]
    apply getF?_assign_eq_of_isSome m _ c hnod
    have hobj0 := obj0_eq_buildRowObjAux sheet rowArr obj0 cols hdec hcols
    have hsome0 : (getF? obj0 c).isSome := by
      rw [hobj0]
      exact isSome_getF?_buildRowObjAux rowArr cols 0 [] c hc
    unfold stampPulled
    exact isSome_getF?_setF _ _ _ _ (isSome_getF?_setF _ _ _ _
      (isSome_getF?_setF _ _ _ _ (isSome_getF?_setF _ _ _ _ hsome0)))
  · rw [heq]
    exact Table.put_mem _ _ _

theorem pull_merge_remote_wins_witness :
    mergeRow "health" 2000 exTableSynced 0
        [Value.str "2026-02-12", Value.num 71] =
      (Table.put (keyPathOf "health") exTableSynced
        (remoteWinsRecord exLocalSynced
          (stampPulled (buildRowObjAux [Value.str "2026-02-12", Value.num 71]
            ["date", "weight_kg", "bmi", "bp_systolic", "bp_diastolic",
             "heart_rate", "blood_sugar", "notes"] 0 []) 0 2000) 0), 1) ∧
    getF (remoteWinsRecord exLocalSynced
        (stampPulled (buildRowObjAux [Value.str "2026-02-12", Value.num 71]
          ["date", "weight_kg", "bmi", "bp_systolic", "bp_diastolic",
           "heart_rate", "blood_sugar", "notes"] 0 []) 0 2000) 0) "id" =
      getF exLocalSynced "id" ∧
    getF (remoteWinsRecord exLocalSynced
        (stampPulled (buildRowObjAux [Value.str "2026-02-12", Value.num 71]
          ["date", "weight_kg", "bmi", "bp_systolic", "bp_diastolic",
           "heart_rate", "blood_sugar", "notes"] 0 []) 0 2000) 0) "_rowIndex" =
      Value.num (Int.ofNat 0) ∧
    getF (remoteWinsRecord exLocalSynced
        (stampPulled (buildRowObjAux [Value.str "2026-02-12", Value.num 71]
          ["date", "weight_kg", "bmi", "bp_systolic", "bp_diastolic",
           "heart_rate", "blood_sugar", "notes"] 0 []) 0 2000) 0) "_synced" =
      Value.bool true ∧
    (∀ c ∈ ["date", "weight_kg", "bmi", "bp_systolic", "bp_diastolic",
        "heart_rate", "blood_sugar", "notes"], c ≠ "id" → c ≠ "_rowIndex" →
      getF? (remoteWinsRecord exLocalSynced
        (stampPulled (buildRowObjAux [Value.str "2026-02-12", Value.num 71]
          ["date", "weight_kg", "bmi", "bp_systolic", "bp_diastolic",
           "heart_rate", "blood_sugar", "notes"] 0 []) 0 2000) 0) c =
        getF? (stampPulled (buildRowObjAux [Value.str "2026-02-12", Value.num 71]
          ["date", "weight_kg", "bmi", "bp_systolic", "bp_diastolic",
           "heart_rate", "blood_sugar", "notes"] 0 []) 0 2000) c) ∧
    remoteWinsRecord exLocalSynced
        (stampPulled (buildRowObjAux [Value.str "2026-02-12", Value.num 71]
          ["date", "weight_kg", "bmi", "bp_systolic", "bp_diastolic",
           "heart_rate", "blood_sugar", "notes"] 0 []) 0 2000) 0 ∈
      (mergeRow "health" 2000 exTableSynced 0
        [Value.str "2026-02-12", Value.num 71]).1.rows :=
  pull_merge_remote_wins "health" 2000 exTableSynced 0
    [Value.str "2026-02-12", Value.num 71] _ _ _ rfl rfl rfl
    (by intro hand; exact absurd (hand.1.symm.trans rfl) (by decide))

/-- C9 (implicit): pull-merge can resurrect a pending local deletion — when
a soft-deleted local record matches a pulled row and the local-wins test
fails, the merge stores the record back with `_deleted=false` and
`_synced=true`, while the sync queue (and its pending delete entry) is left
untouched. -/
theorem pull_merge_resurrects_deleted (sheet : String) (now : Int)
    (ss : Stores) (q : QTable) (i : Nat) (rowArr : List Value)
    (obj0 m : Rec) (e : QueueEntry)
    (hdec : rowArrayToObject sheet rowArr = some obj0)
    (hm : findMatchingRecord (getTable ss sheet) sheet
      (stampPulled obj0 i now) = some m)
    (_hdel : getF m "_deleted" = Value.bool true)
    (hlw : ¬ (getF m "_synced" = Value.bool false ∧
      jsGt (getF m "_modified") (Value.num now) = true))
    (he : e ∈ q.entries) (_hact : e.action = Action.delete) :
    (pullMergeRow sheet now ss q i rowArr).1.2 = q ∧
    e ∈ ((pullMergeRow sheet now ss q i rowArr).1.2).entries ∧
    getF (remoteWinsRecord m (stampPulled obj0 i now) i) "_deleted" =
      Value.bool false ∧
    getF (remoteWinsRecord m (stampPulled obj0 i now) i) "_synced" =
      Value.bool true ∧
    remoteWinsRecord m (stampPulled obj0 i now) i ∈
      (getTable (pullMergeRow sheet now ss q i rowArr).1.1 sheet).rows := by
  have hcond : (getF m "_synced" == Value.bool false &&
      jsGt (getF m "_modified") (Value.num now)) = false := by
    cases hs : (getF m "_synced" == Value.bool false) with
    | false => simp [hs]
    | true =>
      cases hg : jsGt (getF m "_modified") (Value.num now) with
      | false => simp [hs, hg]
      | true => exact absurd ⟨by simpa [beq_iff_eq] using hs, hg⟩ hlw
  have heq := mergeRow_remote_wins_eq sheet now (getTable ss sheet) i rowArr
    obj0 m hdec hm hcond
  have hnod : NodupKeys (stampPulled obj0 i now) :=
    nodupKeys_stampPulled _ _ _ (nodupKeys_of_rowArrayToObject _ _ _ hdec)
  refine ⟨rfl, he, ?_, ?_, ?_⟩
  · have h1 : getF? (remoteWinsRecord m (stampPulled obj0 i now) i)
        "_deleted" = some (Value.bool false) := by
      unfold remoteWinsRecord
      rw [getF?_setF_ne _ _ _ _ (by decide), getF?_setF_ne _ _ _ _ (by decide)]
      exact getF?_assign_of_some m _ "_deleted" (Value.bool false) hnod
        (getF?_stampPulled_deleted obj0 i now)
    unfold getF
    rw [h1]
    rfl
  · have h1 : getF? (remoteWinsRecord m (stampPulled obj0 i now) i)
        "_synced" = some (Value.bool true) := by
      unfold remoteWinsRecord
      rw [getF?_setF_ne _ _ _ _ (by decide), getF?_setF_ne _ _ _ _ (by decide)]
      exact getF?_assign_of_some m _ "_synced" (Value.bool true) hnod
        (getF?_stampPulled_synced obj0 i now)
    unfold getF
    rw [h1]
    rfl
  · show remoteWinsRecord m (stampPulled obj0 i now) i ∈
      (getTable (setTable ss sheet
        (mergeRow sheet now (getTable ss sheet) i rowArr).1) sheet).rows
    rw [getTable_setTable_self, heq]
    exact Table.put_mem _ _ _

theorem pull_merge_resurrects_deleted_witness :
    (pullMergeRow "health" 2000 exStoresTombstone exQueueTombstone 0
      [Value.str "2026-02-12", Value.num 71]).1.2 = exQueueTombstone ∧
    exDeleteEntry ∈ ((pullMergeRow "health" 2000 exStoresTombstone
      exQueueTombstone 0 [Value.str "2026-02-12", Value.num 71]).1.2).entries ∧
    getF (remoteWinsRecord exLocalTombstone
        (stampPulled (buildRowObjAux [Value.str "2026-02-12", Value.num 71]
          ["date", "weight_kg", "bmi", "bp_systolic", "bp_diastolic",
           "heart_rate", "blood_sugar", "notes"] 0 []) 0 2000) 0) "_deleted" =
      Value.bool false ∧
    getF (remoteWinsRecord exLocalTombstone
        (stampPulled (buildRowObjAux [Value.str "2026-02-12", Value.num 71]
          ["date", "weight_kg", "bmi", "bp_systolic", "bp_diastolic",
           "heart_rate", "blood_sugar", "notes"] 0 []) 0 2000) 0) "_synced" =
      Value.bool true ∧
    remoteWinsRecord exLocalTombstone
        (stampPulled (buildRowObjAux [Value.str "2026-02-12", Value.num 71]
          ["date", "weight_kg", "bmi", "bp_systolic", "bp_diastolic",
           "heart_rate", "blood_sugar", "notes"] 0 []) 0 2000) 0 ∈
      (getTable (pullMergeRow "health" 2000 exStoresTombstone exQueueTombstone
        0 [Value.str "2026-02-12", Value.num 71]).1.1 "health").rows :=
  pull_merge_resurrects_deleted "health" 2000 exStoresTombstone
    exQueueTombstone 0 [Value.str "2026-02-12", Value.num 71] _ _ exDeleteEntry
    rfl rfl rfl (by intro hand; exact absurd hand.2 (by decide)) (by decide) rfl

theorem mem_get_subset (sheet : String) (ss : Stores) (opts : GetOpts) (r : Rec)
    (h : r ∈ DataStore.get sheet ss opts) :
    r ∈ (getTable ss sheet).rows ∧ truthy (getF r "_deleted") = false := by
  simp only [DataStore.get] at h
  have hbase : r ∈ (if truthy (jsOr (jsOr opts.dateO opts.fromO) Value.null) &&
      truthy (jsOr (jsOr opts.dateO opts.toO) Value.null) &&
      DATE_INDEXED_STORES.contains sheet then
        (getTable ss sheet).rows.filter (fun x =>
          dateKeyInRange (getF? x "date")
            (jsOr (jsOr opts.dateO opts.fromO) Value.null)
            (jsOr (jsOr opts.dateO opts.toO) Value.null))
      else (getTable ss sheet).rows).filter
        (fun x => !truthy (getF x "_deleted")) := by
    split at h
    · split at h
      all_goals first | exact List.mem_of_mem_take h | exact h
    · exact h
  have h2 := List.mem_filter.mp hbase
  refine ⟨?_, by simpa using h2.2⟩
  rcases h3 : (truthy (jsOr (jsOr opts.dateO opts.fromO) Value.null) &&
      truthy (jsOr (jsOr opts.dateO opts.toO) Value.null) &&
      DATE_INDEXED_STORES.contains sheet) with _ | _
  · have h4 := h2.1
    rw [h3, if_neg (by simp)] at h4
    exact h4
  · have h4 := h2.1
    rw [h3, if_pos rfl] at h4
    exact (List.mem_filter.mp h4).1

theorem Table.put_rows_mem (kp : String) (t : Table) (r x : Rec)
    (hx : x ∈ (Table.put kp t r).rows) :
    x = r ∨ (x ∈ t.rows ∧ (getF x kp == getF r kp) = false) := by
  unfold Table.put at hx
  rcases List.mem_append.mp hx with hx1 | hx2
  · right
    have hf := List.mem_filter.mp hx1
    exact ⟨hf.1, by simpa using hf.2⟩
  · left
    simpa using hx2

theorem keyPathOf_cases (sheet : String) :
    keyPathOf sheet = "key" ∨ keyPathOf sheet = "id" := by
  unfold keyPathOf
  split
  · exact Or.inl rfl
  · exact Or.inr rfl

theorem getF?_softDeleted_kp (existing : Rec) (now : Int) (sheet : String) :
    getF? (softDeleted existing now) (keyPathOf sheet) =
      getF? existing (keyPathOf sheet) := by
  rcases keyPathOf_cases sheet with h | h <;> rw [h] <;> unfold softDeleted <;>
    rw [getF?_setF_ne _ _ _ _ (by decide), getF?_setF_ne _ _ _ _ (by decide),
      getF?_setF_ne _ _ _ _ (by decide)]

theorem getF?_softDeleted_deleted (existing : Rec) (now : Int) :
    getF? (softDeleted existing now) "_deleted" = some (Value.bool true) := by
  unfold softDeleted
  rw [getF?_setF_ne _ _ _ _ (by decide), getF?_setF_ne _ _ _ _ (by decide),
    getF?_setF_self]

theorem getF?_softDeleted_synced (existing : Rec) (now : Int) :
    getF? (softDeleted existing now) "_synced" = some (Value.bool false) := by
  unfold softDeleted
  rw [getF?_setF_ne _ _ _ _ (by decide), getF?_setF_self]

theorem getF?_softDeleted_modified (existing : Rec) (now : Int) :
    getF? (softDeleted existing now) "_modified" = some (Value.num now) := by
  unfold softDeleted
  rw [getF?_setF_self]

theorem purgeDeleted_eq (ss : Stores) (sheet : String) (data : Rec)
    (key : Value) (h : getF? data (keyPathOf sheet) = some key) :
    purgeDeleted ss sheet data = setTable ss sheet
      { rows := (getTable ss sheet).rows.filter
          (fun r => !(getF r (keyPathOf sheet) == key)),
        nextId := (getTable ss sheet).nextId } := by
  unfold purgeDeleted
  by_cases hp : (sheet == "profile") = true
  · have hkp : keyPathOf sheet = "key" := by unfold keyPathOf; rw [if_pos hp]
    rw [hkp] at h ⊢
    rw [if_pos hp, h]
  · have hkp : keyPathOf sheet = "id" := by unfold keyPathOf; rw [if_neg hp]
    rw [hkp] at h ⊢
    rw [if_neg hp, h]

theorem drainQueue_nil (gw : Call → PushResult) (st : DrainState) :
    drainQueue gw [] st = st := rfl

/-- C7: `delete` on an existing record soft-deletes it (tombstone flags set,
`_modified` re-stamped, `true` returned, one delete entry enqueued); the
tombstone is still in the raw table but excluded from every `get`; and once
the queued delete entry is pushed with `{success:true}`, no record with the
deleted key remains in the table. -/
theorem soft_delete_then_purge (sheet : String) (ss : Stores) (q : QTable)
    (key : Value) (now : Int) (existing : Rec) (gw : Call → PushResult)
    (hfind : (getTable ss sheet).rows.find?
      (fun r => getF r (keyPathOf sheet) == key) = some existing)
    (hkey : key ≠ Value.null) :
    (DataStore.delete sheet ss q key now).2.2 = true ∧
    getF (softDeleted existing now) "_deleted" = Value.bool true ∧
    getF (softDeleted existing now) "_synced" = Value.bool false ∧
    getF (softDeleted existing now) "_modified" = Value.num now ∧
    softDeleted existing now ∈
      (getTable (DataStore.delete sheet ss q key now).1 sheet).rows ∧
    (∀ opts : GetOpts, ∀ r : Rec,
      r ∈ DataStore.get sheet (DataStore.delete sheet ss q key now).1 opts →
      ¬ (getF r (keyPathOf sheet) = key)) ∧
    (DataStore.delete sheet ss q key now).2.1 =
      QTable.enqueue q sheet Action.delete (softDeleted existing now)
        (jsOr (getF (softDeleted existing now) "_rowIndex") Value.null) now ∧
    (∀ e : QueueEntry, e.sheet = sheet → e.action = Action.delete →
      e.data = softDeleted existing now → e.retries < MAX_RETRIES →
      gw (mkCall e) = PushResult.ok →
      ∀ r : Rec, r ∈ (getTable (drainQueue gw [e]
          (initDrain (DataStore.delete sheet ss q key now).1)).stores
          sheet).rows →
        ¬ (getF r (keyPathOf sheet) = key)) := by
  have hgf : getF existing (keyPathOf sheet) = key := by
    have h1 := List.find?_some hfind
    simpa [beq_iff_eq] using h1
  have hgf? : getF? existing (keyPathOf sheet) = some key := by
    unfold getF at hgf
    cases hv : getF? existing (keyPathOf sheet) with
    | none => rw [hv] at hgf; exact absurd hgf.symm hkey
    | some w =>
      rw [hv] at hgf
      exact congrArg some (by simpa using hgf)
  have hdel_eq : DataStore.delete sheet ss q key now =
      (setTable ss sheet (Table.put (keyPathOf sheet) (getTable ss sheet)
        (softDeleted existing now)),
       QTable.enqueue q sheet Action.delete (softDeleted existing now)
         (jsOr (getF (softDeleted existing now) "_rowIndex") Value.null) now,
       true) := by
    unfold DataStore.delete
    dsimp only
    rw [hfind]
  have hdkp : getF? (softDeleted existing now) (keyPathOf sheet) = some key :=
    (getF?_softDeleted_kp existing now sheet).trans hgf?
  have hdkpv : getF (softDeleted existing now) (keyPathOf sheet) = key := by
    unfold getF
    rw [hdkp]
    rfl
  refine ⟨by rw [hdel_eq], ?_, ?_, ?_, ?_, ?_, by rw [hdel_eq], ?_⟩
  · unfold getF; rw [getF?_softDeleted_deleted]; rfl
  · unfold getF; rw [getF?_softDeleted_synced]; rfl
  · unfold getF; rw [getF?_softDeleted_modified]; rfl
  · rw [hdel_eq]
    show softDeleted existing now ∈
      (getTable (setTable ss sheet (Table.put (keyPathOf sheet)
        (getTable ss sheet) (softDeleted existing now))) sheet).rows
    rw [getTable_setTable_self]
    exact Table.put_mem _ _ _
  · intro opts r hr
    rw [hdel_eq] at hr
    have hsub := mem_get_subset sheet _ opts r hr
    have hrows := hsub.1
    rw [getTable_setTable_self] at hrows
    rcases Table.put_rows_mem _ _ _ _ hrows with hcase | hcase
    · exfalso
      have hdel2 := hsub.2
      rw [hcase] at hdel2
      unfold getF at hdel2
      rw [getF?_softDeleted_deleted] at hdel2
      simp [truthy] at hdel2
    · intro hcontra
      have : (getF r (keyPathOf sheet) ==
          getF (softDeleted existing now) (keyPathOf sheet)) = true := by
        rw [hcontra, hdkpv]
        simp
      rw [this] at hcase
      exact absurd hcase.2 (by simp)
  · intro e hesheet hact hdata hret hgw r hr
    have hcall := drainQueue_cons_ok gw e [] (initDrain
      (DataStore.delete sheet ss q key now).1) (Nat.not_le.mpr hret) hgw
    rw [hcall, drainQueue_nil, hact, if_pos rfl, hesheet, hdata] at hr
    dsimp only at hr
    rw [purgeDeleted_eq _ sheet (softDeleted existing now) key hdkp] at hr
    rw [getTable_setTable_self] at hr
    have hpred := (List.mem_filter.mp hr).2
    intro hcontra
    rw [hcontra] at hpred
    simp at hpred

theorem soft_delete_then_purge_witness :
    (DataStore.delete "health" exDelStores exDelQueue (Value.num 3)
      1234).2.2 = true ∧
    getF (softDeleted exDelRec 1234) "_deleted" = Value.bool true ∧
    getF (softDeleted exDelRec 1234) "_synced" = Value.bool false ∧
    getF (softDeleted exDelRec 1234) "_modified" = Value.num 1234 ∧
    softDeleted exDelRec 1234 ∈
      (getTable (DataStore.delete "health" exDelStores exDelQueue
        (Value.num 3) 1234).1 "health").rows ∧
    softDeleted exDelRec 1234 ∉
      DataStore.get "health" (DataStore.delete "health" exDelStores exDelQueue
        (Value.num 3) 1234).1
        ⟨Value.null, Value.null, Value.null, Value.null⟩ ∧
    (DataStore.delete "health" exDelStores exDelQueue (Value.num 3)
        1234).2.1 =
      QTable.enqueue exDelQueue "health" Action.delete
        (softDeleted exDelRec 1234)
        (jsOr (getF (softDeleted exDelRec 1234) "_rowIndex") Value.null)
        1234 ∧
    softDeleted exDelRec 1234 ∉
      (getTable (drainQueue (fun _ => PushResult.ok) [exDelPushEntry]
        (initDrain (DataStore.delete "health" exDelStores exDelQueue
          (Value.num 3) 1234).1)).stores "health").rows := by
  have h := soft_delete_then_purge "health" exDelStores exDelQueue
    (Value.num 3) 1234 exDelRec (fun _ => PushResult.ok) (by decide) (by decide)
  refine ⟨h.1, h.2.1, h.2.2.1, h.2.2.2.1, h.2.2.2.2.1, ?_,
    h.2.2.2.2.2.2.1, ?_⟩
  · intro hmem
    exact (h.2.2.2.2.2.1 ⟨Value.null, Value.null, Value.null, Value.null⟩ _
      hmem) (by decide)
  · intro hmem
    exact (h.2.2.2.2.2.2.2 exDelPushEntry rfl rfl rfl (by decide) rfl _ hmem)
      (by decide)

/-- C8: for a date-indexed sheet, `save` stores the stamped record with the
store-assigned id, returns it, enqueues exactly one `append` entry for it,
and a subsequent `get` by the record's date includes it, carrying
`_synced=false` and `_deleted=false`. -/
theorem save_read_after_write (sheet : String) (ss : Stores) (q : QTable)
    (row : Rec) (now : Int) (d : String)
    (hsheet : sheet ∈ DATE_INDEXED_STORES)
    (hid : getF? row "id" = none)
    (hdate : getF? row "date" = some (Value.str d)) :
    DataStore.save sheet ss q row now = some
      (setTable ss sheet
        { rows := (getTable ss sheet).rows ++ [savedRecord sheet ss row now],
          nextId := (getTable ss sheet).nextId + 1 },
       QTable.enqueue q sheet Action.append (savedRecord sheet ss row now)
         Value.null now,
       savedRecord sheet ss row now) ∧
    getF (savedRecord sheet ss row now) "id" =
      Value.num (getTable ss sheet).nextId ∧
    getF (savedRecord sheet ss row now) "_synced" = Value.bool false ∧
    getF (savedRecord sheet ss row now) "_deleted" = Value.bool false ∧
    getF (savedRecord sheet ss row now) "_modified" = Value.num now ∧
    (∀ c, c ≠ "id" → c ≠ "_synced" → c ≠ "_modified" → c ≠ "_deleted" →
      getF? (savedRecord sheet ss row now) c = getF? row c) ∧
    savedRecord sheet ss row now ∈ DataStore.get sheet
      (setTable ss sheet
        { rows := (getTable ss sheet).rows ++ [savedRecord sheet ss row now],
          nextId := (getTable ss sheet).nextId + 1 })
      ⟨Value.str d, Value.null, Value.null, Value.null⟩ ∧
    (QTable.enqueue q sheet Action.append (savedRecord sheet ss row now)
        Value.null now).entries =
      q.entries ++ [⟨q.nextId, sheet, Action.append,
        savedRecord sheet ss row now, Value.null, now, 0⟩] := by
  have hidrec : getF? (saveRecord row now) "id" = none := by
    unfold saveRecord
    rw [getF?_setF_ne _ _ _ _ (by decide), getF?_setF_ne _ _ _ _ (by decide),
      getF?_setF_ne _ _ _ _ (by decide)]
    exact hid
  have hfields : ∀ c, c ≠ "id" → c ≠ "_synced" → c ≠ "_modified" →
      c ≠ "_deleted" → getF? (savedRecord sheet ss row now) c = getF? row c := by
    intro c h1 h2 h3 h4
    unfold savedRecord saveRecord
    rw [getF?_setF_ne _ _ _ _ h1, getF?_setF_ne _ _ _ _ h4,
      getF?_setF_ne _ _ _ _ h3, getF?_setF_ne _ _ _ _ h2]
  have hdaterec : getF? (savedRecord sheet ss row now) "date" =
      some (Value.str d) :=
    (hfields "date" (by decide) (by decide) (by decide) (by decide)).trans hdate
  have hdelrec : getF? (savedRecord sheet ss row now) "_deleted" =
      some (Value.bool false) := by
    unfold savedRecord saveRecord
    rw [getF?_setF_ne _ _ _ _ (by decide), getF?_setF_self]
  have hsave : DataStore.save sheet ss q row now = some
      (setTable ss sheet
        { rows := (getTable ss sheet).rows ++ [savedRecord sheet ss row now],
          nextId := (getTable ss sheet).nextId + 1 },
       QTable.enqueue q sheet Action.append (savedRecord sheet ss row now)
         Value.null now,
       savedRecord sheet ss row now) := by
    unfold DataStore.save
    dsimp only
    unfold Table.add
    rw [hidrec]
    rfl
  refine ⟨hsave, ?_, ?_, ?_, ?_, hfields, ?_, rfl⟩
  · unfold savedRecord getF
    rw [getF?_setF_self]
    rfl
  · have h1 : getF? (savedRecord sheet ss row now) "_synced" =
        some (Value.bool false) := by
      unfold savedRecord saveRecord
      rw [getF?_setF_ne _ _ _ _ (by decide), getF?_setF_ne _ _ _ _ (by decide),
        getF?_setF_ne _ _ _ _ (by decide), getF?_setF_self]
    unfold getF
    rw [h1]
    rfl
  · unfold getF
    rw [hdelrec]
    rfl
  · have h1 : getF? (savedRecord sheet ss row now) "_modified" =
        some (Value.num now) := by
      unfold savedRecord saveRecord
      rw [getF?_setF_ne _ _ _ _ (by decide), getF?_setF_ne _ _ _ _ (by decide),
        getF?_setF_self]
    unfold getF
    rw [h1]
    rfl
  · have hmemrows : savedRecord sheet ss row now ∈
        (getTable ss sheet).rows ++ [savedRecord sheet ss row now] :=
      List.mem_append_right _ (List.mem_singleton.mpr rfl)
    have hpass : (!truthy (getF (savedRecord sheet ss row now) "_deleted")) =
        true := by
      unfold getF
      rw [hdelrec]
      rfl
    simp only [DataStore.get]
    rw [getTable_setTable_self]
    by_cases hd : d = ""
    · have hcond : (truthy (jsOr (jsOr (Value.str d) Value.null) Value.null) &&
          truthy (jsOr (jsOr (Value.str d) Value.null) Value.null) &&
          DATE_INDEXED_STORES.contains sheet) = false := by
        subst hd
        rfl
      have hlim : (truthy Value.null && jsGt Value.null (Value.num 0)) =
          false := rfl
      rw [hlim, if_neg (by simp)]
      rw [hcond, if_neg (by simp)]
      exact List.mem_filter.mpr ⟨hmemrows, hpass⟩
    · have htr : truthy (jsOr (jsOr (Value.str d) Value.null) Value.null) =
          true := by
        simp [jsOr, truthy, hd]
      have hcond : (truthy (jsOr (jsOr (Value.str d) Value.null) Value.null) &&
          truthy (jsOr (jsOr (Value.str d) Value.null) Value.null) &&
          DATE_INDEXED_STORES.contains sheet) = true := by
        rw [htr]
        simp only [Bool.true_and]
        exact List.elem_eq_true_of_mem hsheet
      have hlim : (truthy Value.null && jsGt Value.null (Value.num 0)) =
          false := rfl
      rw [hlim, if_neg (by simp)]
      rw [hcond, if_pos rfl]
      refine List.mem_filter.mpr ⟨List.mem_filter.mpr ⟨hmemrows, ?_⟩, hpass⟩
      have hlo : jsOr (jsOr (Value.str d) Value.null) Value.null =
          Value.str d := by
        simp [jsOr, truthy, hd]
      rw [hlo, hdaterec]
      simp [dateKeyInRange, keyLe]

theorem save_read_after_write_witness :
    DataStore.save "health" exSaveStores exSaveQueue exSaveRow 999 = some
      (setTable exSaveStores "health"
        { rows := (getTable exSaveStores "health").rows ++
            [savedRecord "health" exSaveStores exSaveRow 999],
          nextId := (getTable exSaveStores "health").nextId + 1 },
       QTable.enqueue exSaveQueue "health" Action.append
         (savedRecord "health" exSaveStores exSaveRow 999) Value.null 999,
       savedRecord "health" exSaveStores exSaveRow 999) ∧
    getF (savedRecord "health" exSaveStores exSaveRow 999) "id" =
      Value.num (getTable exSaveStores "health").nextId ∧
    getF (savedRecord "health" exSaveStores exSaveRow 999) "_synced" =
      Value.bool false ∧
    getF (savedRecord "health" exSaveStores exSaveRow 999) "_deleted" =
      Value.bool false ∧
    getF (savedRecord "health" exSaveStores exSaveRow 999) "_modified" =
      Value.num 999 ∧
    getF? (savedRecord "health" exSaveStores exSaveRow 999) "weight_kg" =
      getF? exSaveRow "weight_kg" ∧
    savedRecord "health" exSaveStores exSaveRow 999 ∈ DataStore.get "health"
      (setTable exSaveStores "health"
        { rows := (getTable exSaveStores "health").rows ++
            [savedRecord "health" exSaveStores exSaveRow 999],
          nextId := (getTable exSaveStores "health").nextId + 1 })
      ⟨Value.str "2026-02-12", Value.null, Value.null, Value.null⟩ ∧
    (QTable.enqueue exSaveQueue "health" Action.append
        (savedRecord "health" exSaveStores exSaveRow 999)
        Value.null 999).entries =
      exSaveQueue.entries ++ [⟨exSaveQueue.nextId, "health", Action.append,
        savedRecord "health" exSaveStores exSaveRow 999, Value.null, 999, 0⟩] := by
  have h := save_read_after_write "health" exSaveStores exSaveQueue exSaveRow
    999 "2026-02-12" (by decide) rfl rfl
  exact ⟨h.1, h.2.1, h.2.2.1, h.2.2.2.1, h.2.2.2.2.1,
    h.2.2.2.2.2.1 "weight_kg" (by decide) (by decide) (by decide) (by decide),
    h.2.2.2.2.2.2.1, h.2.2.2.2.2.2.2⟩

/-- C10: the positional row codec round-trips — for any sheet of the column
table and any record defined and non-null at every column of that sheet,
decoding the encoded row agrees with the record on every column. -/
theorem row_codec_roundtrip (sheet : String) (cols : List String) (r : Rec)
    (hcols : colsOf sheet = some cols)
    (hr : ∀ c ∈ cols, ∃ v, getF? r c = some v ∧ v ≠ Value.null) :
    ∃ obj, rowArrayToObject sheet (objectToRowArray sheet r) = some obj ∧
      ∀ c ∈ cols, getF? obj c = getF? r c := by
  refine ⟨buildRowObjAux (objectToRowArray sheet r) cols 0 [], ?_, ?_⟩
  · unfold rowArrayToObject
    rw [hcols]
    rfl
  · intro c hc
    have harr : objectToRowArray sheet r = cols.map (fun c =>
        match getF? r c with
        | some v => if v = Value.null then Value.str "" else v
        | none => Value.str "") := by
      unfold objectToRowArray
      rw [hcols]
    obtain ⟨v, hv, hvn⟩ := hr c hc
    have hrt := getF?_buildRowObjAux_map (fun c =>
        match getF? r c with
        | some v => if v = Value.null then Value.str "" else v
        | none => Value.str "") cols [] [] c hc
    simp only [List.nil_append, List.length_nil] at hrt
    rw [harr, hrt]
    rw [hv]
    simp [hvn]

theorem row_codec_roundtrip_witness :
    ∃ obj, rowArrayToObject "water" (objectToRowArray "water"
        [("date", Value.str "2026-02-12"), ("time", Value.str "08:00"),
         ("amount_ml", Value.num 250)]) = some obj ∧
      ∀ c ∈ ["date", "time", "amount_ml"], getF? obj c =
        getF? [("date", Value.str "2026-02-12"), ("time", Value.str "08:00"),
               ("amount_ml", Value.num 250)] c :=
  row_codec_roundtrip "water" ["date", "time", "amount_ml"]
    [("date", Value.str "2026-02-12"), ("time", Value.str "08:00"),
     ("amount_ml", Value.num 250)] rfl
    (by
      intro c hc
      fin_cases hc
      · exact ⟨Value.str "2026-02-12", rfl, by decide⟩
      · exact ⟨Value.str "08:00", rfl, by decide⟩
      · exact ⟨Value.num 250, rfl, by decide⟩)

end MyLife
